import Mathlib

/-!
Shallow embedding of `crates/herm/src/request/fetch.rs`: the `Fetch` request
codec (construction, binary encoding, binary decoding, size computation).

Modelling conventions:
- Rust byte buffers (`Bytes`, `BytesMut`) are `List Nat`, each entry a byte
  value (< 256 for real buffers; theorems carry that bound where it matters).
- A Rust `String` is represented by its UTF-8 byte list; Rust's type system
  guarantees those bytes are valid UTF-8, which appears as a `utf8Valid`
  hypothesis on theorems quantifying over topics.
- `usize` is modelled as `Nat` (64-bit platform); the Rust cast `as u32`
  becomes `% 2 ^ 32`, and `as u16` becomes `% 2 ^ 16`.
- Machine integers `u16`/`u32`/`u64` are `Nat` with explicit bounds or
  moduli where the Rust types constrain them.
- Fallible functions return `Except FetchCreationError _`.
-/

namespace Herm

/-- The error enum `FetchCreationError` from fetch.rs. -/
inductive FetchCreationError where
  | TopicTooLong
  | MalformedBytes
deriving DecidableEq, Repr

/-- The `Fetch` struct from fetch.rs. The Rust field `size: u32`
(the max-size cap) is named `max_size` here because Lean's projection
`Fetch.size` is reserved for the method `size()` below. -/
structure Fetch where
  topic : List Nat
  partition : Nat
  offset : Nat
  max_size : Nat
deriving DecidableEq, Repr

/-- Big-endian interpretation of a byte list as a natural number, as the
`bytes` crate's `get_u16` / `get_u32` / `get_u64` do on the bytes they read. -/
def beDecode (l : List Nat) : Nat := l.foldl (fun acc b => acc * 256 + b) 0

/-- The `w` big-endian bytes of `n % 256 ^ w`, as the `bytes` crate's
`put_u16` / `put_u32` / `put_u64` write for a machine integer of width `w`
bytes. -/
def beEncode : Nat → Nat → List Nat
  | 0, _ => []
  | w + 1, n => beEncode w (n / 256) ++ [n % 256]

/-- Whether a byte is a UTF-8 continuation byte (`0x80..=0xBF`). -/
def utf8Cont (b : Nat) : Bool := 0x80 ≤ b && b < 0xC0

/-- UTF-8 validity of a byte list, exactly as Rust's `String::from_utf8`
validates (Unicode Table 3-7: well-formed byte sequences, rejecting
overlong forms, surrogates `ED A0..`, and code points above `U+10FFFF`). -/
def utf8Valid : List Nat → Bool
  | [] => true
  | b0 :: rest =>
    if b0 < 0x80 then
      utf8Valid rest
    else if b0 < 0xC2 then
      false
    else if b0 < 0xE0 then
      match rest with
      | b1 :: rest1 => utf8Cont b1 && utf8Valid rest1
      | [] => false
    else if b0 < 0xF0 then
      match rest with
      | b1 :: b2 :: rest2 =>
        (if b0 = 0xE0 then decide (0xA0 ≤ b1 ∧ b1 < 0xC0)
         else if b0 = 0xED then decide (0x80 ≤ b1 ∧ b1 < 0xA0)
         else utf8Cont b1) && utf8Cont b2 && utf8Valid rest2
      | _ => false
    else if b0 < 0xF5 then
      match rest with
      | b1 :: b2 :: b3 :: rest3 =>
        (if b0 = 0xF0 then decide (0x90 ≤ b1 ∧ b1 < 0xC0)
         else if b0 = 0xF4 then decide (0x80 ≤ b1 ∧ b1 < 0x90)
         else utf8Cont b1) && utf8Cont b2 && utf8Cont b3 && utf8Valid rest3
      | _ => false
    else
      false

/-- `Fetch::new` from fetch.rs. The Rust guard is
`(topic.len() as u32) > u16::MAX as u32`; on a 64-bit platform the
`as u32` cast truncates, hence the `% 2 ^ 32`. -/
def Fetch.new (topic : List Nat) (partition : Nat) (offset : Nat)
    (max_size : Nat) : Except FetchCreationError Fetch :=
  if topic.length % 2 ^ 32 > 65535 then
    Except.error FetchCreationError.TopicTooLong
  else
    Except.ok ⟨topic, partition, offset, max_size⟩

/-- `Fetch::from_bytes` from fetch.rs. `bytes.get_u16()` reads the first two
bytes big-endian and advances the cursor, so after it the remaining buffer is
`bytes.drop 2`; `bytes.len()` then measures that remainder. `slice(0..n)`
is `take n` of the remainder and `advance n` is `drop n`. -/
def Fetch.from_bytes (bytes : List Nat) : Except FetchCreationError Fetch :=
  if bytes.length < 2 then
    Except.error FetchCreationError.MalformedBytes
  else
    let topic_len := beDecode (bytes.take 2)
    let rest := bytes.drop 2
    if rest.length = topic_len + 4 + 8 + 4 then
      if utf8Valid (rest.take topic_len) then
        let after := rest.drop topic_len
        Except.ok
          ⟨rest.take topic_len,
           beDecode (after.take 4),
           beDecode ((after.drop 4).take 8),
           beDecode (((after.drop 4).drop 8).take 4)⟩
      else
        Except.error FetchCreationError.MalformedBytes
    else
      Except.error FetchCreationError.MalformedBytes

/-- `Fetch::to_bytes` from fetch.rs: a 2-byte big-endian length prefix
(`self.topic.len() as u16`, i.e. the two BE bytes of `len % 2 ^ 16`,
which `beEncode 2` produces), the raw topic bytes, then the partition (u32),
offset (u64) and max-size (u32) fields big-endian. -/
def Fetch.to_bytes (f : Fetch) : List Nat :=
  beEncode 2 f.topic.length ++ f.topic ++
    beEncode 4 f.partition ++ beEncode 8 f.offset ++ beEncode 4 f.max_size

/-- `Fetch::size` from fetch.rs: `2 + self.topic.len() + 4 + 8 + 4`. -/
def Fetch.size (f : Fetch) : Nat := 2 + f.topic.length + 4 + 8 + 4

/-- One read step of the `bytes` crate cursor for a `w`-byte integer:
`get_u16`/`get_u32`/`get_u64` PANIC when fewer than `w` bytes remain
(modelled as `none`), otherwise return the value and the advanced buffer. -/
def getBE (w : Nat) (l : List Nat) : Option (Nat × List Nat) :=
  if w ≤ l.length then some (beDecode (l.take w), l.drop w) else none

/-- `Bytes::slice(0..n)` on the remaining buffer: PANICS (`none`) when `n`
exceeds the remaining length. -/
def sliceTo (n : Nat) (l : List Nat) : Option (List Nat) :=
  if n ≤ l.length then some (l.take n) else none

/-- `Bytes::advance n`: PANICS (`none`) when `n` exceeds the remaining
length. -/
def advanceBy (n : Nat) (l : List Nat) : Option (List Nat) :=
  if n ≤ l.length then some (l.drop n) else none

/-- `Fetch::from_bytes` re-expressed with every panicking primitive of the
`bytes` crate made explicit: `none` marks a reachable panic. Proving it
always returns `some` of `Fetch.from_bytes` shows no panic path is
reachable on any input. -/
def Fetch.from_bytesChecked (bytes : List Nat) :
    Option (Except FetchCreationError Fetch) :=
  if bytes.length < 2 then
    some (Except.error FetchCreationError.MalformedBytes)
  else do
    let (topic_len, rest) ← getBE 2 bytes
    if rest.length = topic_len + 4 + 8 + 4 then do
      let topicBytes ← sliceTo topic_len rest
      if utf8Valid topicBytes then do
        let rest1 ← advanceBy topic_len rest
        let (p, rest2) ← getBE 4 rest1
        let (o, rest3) ← getBE 8 rest2
        let (s, _) ← getBE 4 rest3
        pure (Except.ok ⟨topicBytes, p, o, s⟩)
      else
        pure (Except.error FetchCreationError.MalformedBytes)
    else
      pure (Except.error FetchCreationError.MalformedBytes)

/-! Helper lemmas about the big-endian byte codec. -/

theorem beEncode_length (w n : Nat) : (beEncode w n).length = w := by
  induction w generalizing n with
  | zero => rfl
  | succ w ih => simp [beEncode, ih]

theorem mem_beEncode_lt (w n : Nat) : ∀ x ∈ beEncode w n, x < 256 := by
  induction w generalizing n with
  | zero => simp [beEncode]
  | succ w ih =>
    intro x hx
    simp only [beEncode, List.mem_append, List.mem_singleton] at hx
    rcases hx with h | h
    · exact ih _ x h
    · subst h; exact Nat.mod_lt _ (by norm_num)

theorem beDecode_append_singleton (l : List Nat) (b : Nat) :
    beDecode (l ++ [b]) = beDecode l * 256 + b := by
  simp [beDecode, List.foldl_append]

theorem beDecode_beEncode (w n : Nat) :
    beDecode (beEncode w n) = n % 256 ^ w := by
  induction w generalizing n with
  | zero => simp [beEncode, beDecode, Nat.mod_one]
  | succ w ih =>
    rw [beEncode, beDecode_append_singleton, ih, pow_succ', Nat.mod_mul]
    omega

theorem beDecode_lt (l : List Nat) (h : ∀ x ∈ l, x < 256) :
    beDecode l < 256 ^ l.length := by
  induction l using List.reverseRecOn with
  | nil => simp [beDecode]
  | append_singleton l b ih =>
    have hb : b < 256 := h b (by simp)
    have hl : beDecode l < 256 ^ l.length :=
      ih (fun x hx => h x (by simp [hx]))
    have h2 : (beDecode l + 1) * 256 ≤ 256 ^ l.length * 256 :=
      Nat.mul_le_mul_right 256 hl
    rw [beDecode_append_singleton]
    simp only [List.length_append, List.length_singleton, pow_succ]
    omega

theorem beEncode_beDecode (w : Nat) (l : List Nat) (hlen : l.length = w)
    (h : ∀ x ∈ l, x < 256) : beEncode w (beDecode l) = l := by
  induction w generalizing l with
  | zero =>
    rw [List.length_eq_zero] at hlen
    subst hlen; rfl
  | succ w ih =>
    rcases List.eq_nil_or_concat l with rfl | ⟨L, b, rfl⟩
    · simp at hlen
    · rw [List.concat_eq_append] at hlen h ⊢
      have hb : b < 256 := h b (by simp)
      have hL : L.length = w := by simp at hlen; omega
      rw [beDecode_append_singleton, beEncode]
      have h1 : (beDecode L * 256 + b) / 256 = beDecode L := by omega
      have h2 : (beDecode L * 256 + b) % 256 = b := by omega
      rw [h1, h2, ih L hL (fun x hx => h x (by simp [hx]))]

/-- Sanity check of the UTF-8 validator: ASCII and the Euro sign are
accepted; a surrogate sequence, an overlong form and a stray `0xFF` are
rejected, as Rust's validator does. -/
theorem utf8Valid_sanity :
    utf8Valid [116, 101, 115, 116] = true ∧
    utf8Valid [0xE2, 0x82, 0xAC] = true ∧
    utf8Valid [0xED, 0xA0, 0x80] = false ∧
    utf8Valid [0xC0, 0x80] = false ∧
    utf8Valid [0xFF] = false := by decide

/-! Claim theorems. -/

/-- C4: for every `Fetch` value, `size()` returns
`2 + topic_byte_length + 4 + 8 + 4`, i.e. `18 + topic_byte_length`, and the
buffer produced by `to_bytes` has length exactly `size()`. -/
theorem size_identity (f : Fetch) :
    f.size = 2 + f.topic.length + 4 + 8 + 4 ∧
    f.size = 18 + f.topic.length ∧
    (Fetch.to_bytes f).length = f.size := by
  refine ⟨rfl, by simp only [Fetch.size]; omega, ?_⟩
  simp only [Fetch.to_bytes, Fetch.size, List.length_append, beEncode_length]

/-- C5 counterexample: encoding (topic="test", partition=0, offset=0,
max_size=1024) yields a 22-byte buffer, not an 18-byte one as the claim
labels it. -/
theorem to_bytes_test_not_18_bytes :
    (Fetch.to_bytes ⟨[116, 101, 115, 116], 0, 0, 1024⟩).length = 22 ∧
    (Fetch.to_bytes ⟨[116, 101, 115, 116], 0, 0, 1024⟩).length ≠ 18 := by
  constructor
  · decide
  · decide

/-- C5 (amended): encoding (topic="test", partition=0, offset=0,
max_size=1024) yields exactly the 22 bytes `00 04`, `'t' 'e' 's' 't'`,
four zero bytes, eight zero bytes, `00 00 04 00` — a 2-byte big-endian
length, the raw topic bytes, then partition, offset and max_size
big-endian with no padding — and decoding those bytes reproduces the
original four field values. -/
theorem to_bytes_test_layout :
    Fetch.new [116, 101, 115, 116] 0 0 1024 =
      Except.ok ⟨[116, 101, 115, 116], 0, 0, 1024⟩ ∧
    Fetch.to_bytes ⟨[116, 101, 115, 116], 0, 0, 1024⟩ =
      [0x00, 0x04, 116, 101, 115, 116,
       0x00, 0x00, 0x00, 0x00,
       0x00, 0x00, 0x00, 0x00, 0x00, 0x00, 0x00, 0x00,
       0x00, 0x00, 0x04, 0x00] ∧
    Fetch.from_bytes
        [0x00, 0x04, 116, 101, 115, 116,
         0x00, 0x00, 0x00, 0x00,
         0x00, 0x00, 0x00, 0x00, 0x00, 0x00, 0x00, 0x00,
         0x00, 0x00, 0x04, 0x00] =
      Except.ok ⟨[116, 101, 115, 116], 0, 0, 1024⟩ := by
  refine ⟨rfl, by decide, rfl⟩

/-- C6: decoding the concrete 22-byte buffer
`[00 04 't' 'e' 's' 't' | 00 00 00 06 | 00..00 08 | 00 00 00 03]`
succeeds and yields topic="test", partition=6, offset=8, max_size=3. -/
theorem from_bytes_concrete_scenario :
    Fetch.from_bytes
        [0x00, 0x04, 116, 101, 115, 116,
         0x00, 0x00, 0x00, 0x06,
         0x00, 0x00, 0x00, 0x00, 0x00, 0x00, 0x00, 0x08,
         0x00, 0x00, 0x00, 0x03] =
      Except.ok ⟨[116, 101, 115, 116], 6, 8, 3⟩ := rfl

/-- C2: the two concrete bounds of the claim hold (a 65536-byte topic is
rejected with `TopicTooLong`, a 65535-byte topic is accepted), but the
claimed if-and-only-if fails: the Rust guard casts `topic.len()` to `u32`
before comparing, so a topic of `2 ^ 32` bytes — far over the 65535
bound — is accepted by `Fetch::new`. -/
theorem new_truncating_cast_accepts_huge_topic :
    Fetch.new (List.replicate (2 ^ 32) 97) 0 0 1024 =
      Except.ok ⟨List.replicate (2 ^ 32) 97, 0, 0, 1024⟩ ∧
    65535 < (List.replicate (2 ^ 32) (97 : Nat)).length ∧
    Fetch.new (List.replicate 65536 97) 0 0 1024 =
      Except.error FetchCreationError.TopicTooLong ∧
    Fetch.new (List.replicate 65535 97) 0 0 1024 =
      Except.ok ⟨List.replicate 65535 97, 0, 0, 1024⟩ := by
  refine ⟨?_, ?_, ?_, ?_⟩
  · simp only [Fetch.new, List.length_replicate]
    rw [if_neg (by simp)]
  · simp only [List.length_replicate]
    norm_num
  · simp only [Fetch.new, List.length_replicate]
    rw [if_pos (by norm_num)]
  · simp only [Fetch.new, List.length_replicate]
    rw [if_neg (by norm_num)]

/-- C8: the decoding half of the claim is sound (see the length prefix),
but the invariant does not hold for the field-construction entry point:
`Fetch::new` accepts a `2 ^ 32`-byte topic because its guard truncates the
length through a `u32` cast, yielding a `Fetch` whose topic length exceeds
65535. -/
theorem new_bypasses_topic_bound :
    ∃ f, Fetch.new (List.replicate (2 ^ 32) 98) 1 2 3 = Except.ok f ∧
      65535 < f.topic.length := by
  refine ⟨⟨List.replicate (2 ^ 32) 98, 1, 2, 3⟩, ?_, ?_⟩
  · simp only [Fetch.new, List.length_replicate]
    rw [if_neg (by simp)]
  · simp only [List.length_replicate]
    norm_num

/-- C1: for every topic (a Rust `String`, i.e. a valid-UTF-8 byte list)
whose byte length is at most 65535 and every partition (u32), offset (u64)
and max_size (u32), `Fetch::new` succeeds, and decoding the encoding of the
constructed request succeeds and yields the same four fields. -/
theorem fetch_roundtrip (topic : List Nat) (partition offset max_size : Nat)
    (hutf : utf8Valid topic = true) (hlen : topic.length ≤ 65535)
    (hp : partition < 2 ^ 32) (ho : offset < 2 ^ 64) (hs : max_size < 2 ^ 32) :
    ∃ f, Fetch.new topic partition offset max_size = Except.ok f ∧
      Fetch.from_bytes (Fetch.to_bytes f) = Except.ok f ∧
      f.topic = topic ∧ f.partition = partition ∧ f.offset = offset ∧
      f.max_size = max_size := by
  refine ⟨⟨topic, partition, offset, max_size⟩, ?_, ?_, rfl, rfl, rfl, rfl⟩
  · simp only [Fetch.new]
    rw [if_neg (by omega)]
  · have e2 : (beEncode 2 topic.length).length = 2 := beEncode_length 2 _
    have e4p : (beEncode 4 partition).length = 4 := beEncode_length 4 _
    have e8 : (beEncode 8 offset).length = 8 := beEncode_length 8 _
    have e4s : (beEncode 4 max_size).length = 4 := beEncode_length 4 _
    simp only [Fetch.to_bytes, Fetch.from_bytes, List.append_assoc]
    rw [List.take_left' e2, List.drop_left' e2, beDecode_beEncode,
      (by omega : topic.length % 256 ^ 2 = topic.length)]
    rw [if_neg (by simp only [List.length_append, e2, e4p, e8, e4s,
      beEncode_length]; omega)]
    rw [if_pos (by simp only [List.length_append, e4p, e8, e4s,
      beEncode_length]; try omega)]
    rw [List.take_left, List.drop_left, if_pos hutf]
    rw [List.take_left' e4p, List.drop_left' e4p,
      List.take_left' e8, List.drop_left' e8,
      List.take_of_length_le (le_of_eq e4s)]
    rw [beDecode_beEncode, beDecode_beEncode, beDecode_beEncode,
      (by omega : partition % 256 ^ 4 = partition),
      (by omega : offset % 256 ^ 8 = offset),
      (by omega : max_size % 256 ^ 4 = max_size)]

/-- C1 witness: the round-trip at topic="test", partition=6, offset=8,
max_size=3. -/
theorem fetch_roundtrip_witness :
    utf8Valid [116, 101, 115, 116] = true ∧
    ([116, 101, 115, 116] : List Nat).length ≤ 65535 ∧
    (6 : Nat) < 2 ^ 32 ∧ (8 : Nat) < 2 ^ 64 ∧ (3 : Nat) < 2 ^ 32 ∧
    (∃ f, Fetch.new [116, 101, 115, 116] 6 8 3 = Except.ok f ∧
      Fetch.from_bytes (Fetch.to_bytes f) = Except.ok f ∧
      f.topic = [116, 101, 115, 116] ∧ f.partition = 6 ∧ f.offset = 8 ∧
      f.max_size = 3) :=
  ⟨by decide, by decide, by decide, by decide, by decide,
    fetch_roundtrip [116, 101, 115, 116] 6 8 3 (by decide) (by decide)
      (by decide) (by decide) (by decide)⟩

/-- Every result of `Fetch::from_bytes` is either the `MalformedBytes`
error or a success (shared classification helper). -/
theorem from_bytes_result (b : List Nat) :
    Fetch.from_bytes b = Except.error FetchCreationError.MalformedBytes ∨
    ∃ f, Fetch.from_bytes b = Except.ok f := by
  simp only [Fetch.from_bytes]
  by_cases h1 : b.length < 2
  · rw [if_pos h1]; exact Or.inl rfl
  · rw [if_neg h1]
    by_cases h2 : (b.drop 2).length = beDecode (b.take 2) + 4 + 8 + 4
    · rw [if_pos h2]
      by_cases h3 : utf8Valid ((b.drop 2).take (beDecode (b.take 2))) = true
      · rw [if_pos h3]; exact Or.inr ⟨_, rfl⟩
      · rw [if_neg h3]; exact Or.inl rfl
    · rw [if_neg h2]; exact Or.inl rfl

/-- C3: for every input buffer, `Fetch::from_bytes` fails with
`MalformedBytes` exactly when the buffer is shorter than the 2-byte prefix,
or the remaining length after the prefix is not exactly
`topic_len + 4 + 8 + 4` (too short or too long), or the `topic_len` topic
bytes are not valid UTF-8; in every other case it succeeds, and no other
error kind is ever returned (every result is `MalformedBytes` or a
success). -/
theorem from_bytes_malformed_iff (b : List Nat) :
    (Fetch.from_bytes b = Except.error FetchCreationError.MalformedBytes ↔
      (b.length < 2 ∨
        (b.drop 2).length ≠ beDecode (b.take 2) + 4 + 8 + 4 ∨
        utf8Valid ((b.drop 2).take (beDecode (b.take 2))) = false)) ∧
    (Fetch.from_bytes b = Except.error FetchCreationError.MalformedBytes ∨
      ∃ f, Fetch.from_bytes b = Except.ok f) := by
  refine ⟨?_, from_bytes_result b⟩
  by_cases h1 : b.length < 2
  · simp only [Fetch.from_bytes, if_pos h1]
    exact ⟨fun _ => Or.inl h1, fun _ => trivial⟩
  · by_cases h2 : (b.drop 2).length = beDecode (b.take 2) + 4 + 8 + 4
    · by_cases h3 : utf8Valid ((b.drop 2).take (beDecode (b.take 2))) = true
      · simp only [Fetch.from_bytes, if_neg h1, if_pos h2, if_pos h3]
        refine ⟨fun h => Except.noConfusion h, fun hc => ?_⟩
        rcases hc with hc | hc | hc
        · exact absurd hc h1
        · exact absurd h2 hc
        · rw [h3] at hc
          exact Bool.noConfusion hc
      · have hfalse :
            utf8Valid ((b.drop 2).take (beDecode (b.take 2))) = false := by
          cases hv : utf8Valid ((b.drop 2).take (beDecode (b.take 2)))
          · rfl
          · exact absurd hv h3
        simp only [Fetch.from_bytes, if_neg h1, if_pos h2, if_neg h3]
        exact ⟨fun _ => Or.inr (Or.inr hfalse), fun _ => trivial⟩
    · simp only [Fetch.from_bytes, if_neg h1, if_neg h2]
      exact ⟨fun _ => Or.inr (Or.inl h2), fun _ => trivial⟩

/-- C7: decoding is total and panic-free: `from_bytesChecked`, which makes
every panicking primitive of the `bytes` crate explicit (returning `none`
at any out-of-bounds read), always returns `some` of what `from_bytes`
returns — so every bounds condition is checked before the corresponding
read — and the result is always a success or a `MalformedBytes` error. -/
theorem from_bytes_total_no_panic (b : List Nat) :
    Fetch.from_bytesChecked b = some (Fetch.from_bytes b) ∧
    (Fetch.from_bytes b = Except.error FetchCreationError.MalformedBytes ∨
      ∃ f, Fetch.from_bytes b = Except.ok f) := by
  refine ⟨?_, from_bytes_result b⟩
  by_cases h1 : b.length < 2
  · simp only [Fetch.from_bytesChecked, Fetch.from_bytes, if_pos h1]
  · have h2 : 2 ≤ b.length := Nat.not_lt.mp h1
    by_cases h3 : (b.drop 2).length = beDecode (b.take 2) + 4 + 8 + 4
    · have h3' : b.length - 2 = beDecode (b.take 2) + 4 + 8 + 4 := by
        rw [List.length_drop] at h3
        exact h3
      have c1 :
          beDecode (b.take 2) ≤ beDecode (b.take 2) + 4 + 8 + 4 := by
        omega
      have c2 : 4 ≤ b.length - (2 + beDecode (b.take 2)) := by
        omega
      have c3 : 8 ≤ b.length - (2 + beDecode (b.take 2) + 4) := by
        omega
      have c4 : 4 ≤ b.length - (2 + beDecode (b.take 2) + 4 + 8) := by
        omega
      by_cases h4 : utf8Valid ((b.drop 2).take (beDecode (b.take 2))) = true
      · simp [Fetch.from_bytesChecked, Fetch.from_bytes, getBE, sliceTo,
          advanceBy, h1, h2, h3', h4, c1, c2, c3, c4]
      · simp [Fetch.from_bytesChecked, Fetch.from_bytes, getBE, sliceTo,
          advanceBy, h1, h2, h3', h4, c1]
    · have h3' : ¬(b.length - 2 = beDecode (b.take 2) + 4 + 8 + 4) := by
        rw [List.length_drop] at h3
        exact h3
      simp [Fetch.from_bytesChecked, Fetch.from_bytes, getBE, sliceTo,
        advanceBy, h1, h2, h3']

/-- C9: for every byte buffer (entries < 256) on which `Fetch::from_bytes`
succeeds, re-encoding the decoded request with `Fetch::to_bytes` reproduces
the buffer exactly byte-for-byte. -/
theorem decode_then_encode (b : List Nat) (f : Fetch)
    (hb : ∀ x ∈ b, x < 256) (h : Fetch.from_bytes b = Except.ok f) :
    Fetch.to_bytes f = b := by
  simp only [Fetch.from_bytes] at h
  by_cases h1 : b.length < 2
  · rw [if_pos h1] at h
    exact Except.noConfusion h
  · rw [if_neg h1] at h
    by_cases h2 : (b.drop 2).length = beDecode (b.take 2) + 4 + 8 + 4
    swap
    · rw [if_neg h2] at h
      exact Except.noConfusion h
    rw [if_pos h2] at h
    by_cases h3 : utf8Valid ((b.drop 2).take (beDecode (b.take 2))) = true
    swap
    · rw [if_neg h3] at h
      exact Except.noConfusion h
    rw [if_pos h3] at h
    injection h with hf
    subst hf
    have hb2 : 2 ≤ b.length := Nat.not_lt.mp h1
    have htake2 : (b.take 2).length = 2 := by
      rw [List.length_take]
      omega
    have hrestlen : (b.drop 2).length = beDecode (b.take 2) + 16 := by
      omega
    have hpre : beEncode 2 (beDecode (b.take 2)) = b.take 2 :=
      beEncode_beDecode 2 _ htake2
        (fun x hx => hb x (List.take_subset 2 b hx))
    have hT : ((b.drop 2).take (beDecode (b.take 2))).length
        = beDecode (b.take 2) := by
      rw [List.length_take]
      omega
    have hsubA : ∀ x ∈ (b.drop 2).drop (beDecode (b.take 2)), x < 256 :=
      fun x hx => hb x (List.drop_subset 2 b (List.drop_subset _ _ hx))
    have hAlen : ((b.drop 2).drop (beDecode (b.take 2))).length = 16 := by
      rw [List.length_drop]
      omega
    have h4p : beEncode 4
        (beDecode (((b.drop 2).drop (beDecode (b.take 2))).take 4))
        = ((b.drop 2).drop (beDecode (b.take 2))).take 4 :=
      beEncode_beDecode 4 _ (by rw [List.length_take, hAlen]; omega)
        (fun x hx => hsubA x (List.take_subset _ _ hx))
    have h8o : beEncode 8
        (beDecode ((((b.drop 2).drop (beDecode (b.take 2))).drop 4).take 8))
        = (((b.drop 2).drop (beDecode (b.take 2))).drop 4).take 8 :=
      beEncode_beDecode 8 _
        (by rw [List.length_take, List.length_drop, hAlen]; omega)
        (fun x hx => hsubA x (List.drop_subset _ _ (List.take_subset _ _ hx)))
    have hS4 : ((((b.drop 2).drop (beDecode (b.take 2))).drop 4).drop 8).take 4
        = (((b.drop 2).drop (beDecode (b.take 2))).drop 4).drop 8 :=
      List.take_of_length_le
        (by rw [List.length_drop, List.length_drop, hAlen])
    have h4s : beEncode 4
        (beDecode ((((b.drop 2).drop (beDecode (b.take 2))).drop 4).drop 8))
        = (((b.drop 2).drop (beDecode (b.take 2))).drop 4).drop 8 :=
      beEncode_beDecode 4 _
        (by rw [List.length_drop, List.length_drop, hAlen])
        (fun x hx => hsubA x (List.drop_subset _ _ (List.drop_subset _ _ hx)))
    simp only [Fetch.to_bytes, List.append_assoc]
    rw [hT, hpre, hS4, h4p, h8o, h4s]
    rw [List.take_append_drop, List.take_append_drop, List.take_append_drop,
      List.take_append_drop]

/-- C9 witness: the concrete 19-byte buffer encoding topic="a",
partition=1, offset=2, max_size=3 decodes successfully and re-encodes to
itself. -/
theorem decode_then_encode_witness :
    (∀ x ∈ ([0, 1, 97, 0, 0, 0, 1, 0, 0, 0, 0, 0, 0, 0, 2,
        0, 0, 0, 3] : List Nat), x < 256) ∧
    Fetch.from_bytes [0, 1, 97, 0, 0, 0, 1, 0, 0, 0, 0, 0, 0, 0, 2,
        0, 0, 0, 3] = Except.ok ⟨[97], 1, 2, 3⟩ ∧
    Fetch.to_bytes ⟨[97], 1, 2, 3⟩ =
      [0, 1, 97, 0, 0, 0, 1, 0, 0, 0, 0, 0, 0, 0, 2, 0, 0, 0, 3] :=
  ⟨by decide, rfl, decode_then_encode _ ⟨[97], 1, 2, 3⟩ (by decide) rfl⟩

/-- C10: the empty topic is accepted at both entry points: `Fetch::new`
with an empty topic succeeds for any partition, offset and max_size, and
any 18-byte buffer whose 2-byte prefix is zero decodes to a request with
an empty topic. -/
theorem empty_topic_ok (partition offset max_size : Nat) (t : List Nat)
    (ht : t.length = 16) :
    Fetch.new [] partition offset max_size =
      Except.ok ⟨[], partition, offset, max_size⟩ ∧
    ∃ f, Fetch.from_bytes (0 :: 0 :: t) = Except.ok f ∧ f.topic = [] := by
  constructor
  · rfl
  · refine ⟨⟨[], beDecode (t.take 4), beDecode ((t.drop 4).take 8),
      beDecode (((t.drop 4).drop 8).take 4)⟩, ?_, rfl⟩
    simp only [Fetch.from_bytes, List.length_cons, List.take_succ_cons,
      List.take_zero, List.drop_succ_cons, List.drop_zero]
    rw [show beDecode [0, 0] = 0 from rfl]
    rw [if_neg (by omega), if_pos (by omega)]
    rw [List.take_zero, List.drop_zero, if_pos (show utf8Valid [] = true from rfl)]

/-- C10 witness: the claim instantiated at partition=1, offset=2,
max_size=3 and the all-zero 16-byte tail. -/
theorem empty_topic_ok_witness :
    (List.replicate 16 (0 : Nat)).length = 16 ∧
    (Fetch.new [] 1 2 3 = Except.ok ⟨[], 1, 2, 3⟩ ∧
      ∃ f, Fetch.from_bytes (0 :: 0 :: List.replicate 16 0) = Except.ok f ∧
        f.topic = []) :=
  ⟨by decide, empty_topic_ok 1 2 3 (List.replicate 16 0) (by decide)⟩

end Herm
